import Mathlib

/-!
Verification of the license-level (LL) clock module of lancer-ledger.

The definitions below are shallow embeddings of the TypeScript functions in
`src/unnamed/part_001` (the `ll-clock` library) and of the base-state
reconstruction in `src/frontend/src/app/dashboard/page.tsx`.  TypeScript
`number` values are modelled as `Int`: all arithmetic in this module is
integer arithmetic on integer inputs.  The bounded `for`/`while` loops that
walk license levels `ll, ll+1, ..., 11` are embedded as structural recursion
over the explicit list of the levels they visit.
-/

/-- `getLLClockSegments` (src/unnamed/part_001 lines 1-6):
segment count of the clock for one license level. -/
def getLLClockSegments (ll : Int) : Int :=
  if 1 ≤ ll ∧ ll ≤ 5 then 3
  else if 6 ≤ ll ∧ ll ≤ 9 then 4
  else if 10 ≤ ll ∧ ll ≤ 12 then 5
  else 3

/-- The accumulator loop of `computeTotalLLTicks`:
`sumLLSegments n = getLLClockSegments 0 + ... + getLLClockSegments (n-1)`. -/
def sumLLSegments : Nat → Int
  | 0 => 0
  | n + 1 => sumLLSegments n + getLLClockSegments (Int.ofNat n)

/-- `computeTotalLLTicks` (src/unnamed/part_001 lines 8-14): the loop
`for (ll = 0; ll < licenseLevel; ll++) ticks += getLLClockSegments(ll)`
runs over `0 ≤ ll < licenseLevel` (not at all when `licenseLevel ≤ 0`),
then `progress` is added. -/
def computeTotalLLTicks (licenseLevel progress : Int) : Int :=
  sumLLSegments licenseLevel.toNat + progress

/-- The record `{ level, progress }` returned by `ticksToLevelProgress`. -/
structure LevelProgress where
  level : Int
  progress : Int
deriving DecidableEq

/-- The levels `0, 1, ..., 11` visited by the loop of `ticksToLevelProgress`. -/
def llLevels : List Int := (List.range 12).map Int.ofNat

/-- The loop of `ticksToLevelProgress` over its remaining levels:
at each level, return `{level: ll, progress: remaining}` if
`remaining < seg`, else subtract `seg` and continue; after level 11,
return `{level: 12, progress: 0}`. -/
def ticksLoopGo : List Int → Int → LevelProgress
  | [], _ => ⟨12, 0⟩
  | ll :: rest, remaining =>
    let seg := getLLClockSegments ll
    if remaining < seg then ⟨ll, remaining⟩
    else ticksLoopGo rest (remaining - seg)

/-- `ticksToLevelProgress` (src/unnamed/part_001 lines 16-29):
clamps negative input to 0, then walks levels 0..11. -/
def ticksToLevelProgress (totalTicks : Int) : LevelProgress :=
  ticksLoopGo llLevels (max 0 totalTicks)

/-- The `LLClockInfo` record emitted by `computeLLClockDisplays`. -/
structure LLClockInfo where
  level : Int
  segments : Int
  filled : Int
  pending : Int
deriving DecidableEq

/-- The levels `ll, ll+1, ..., 11` that the while-loop of
`computeLLClockDisplays` can visit when starting at `ll` (empty when
`ll ≥ 12`, matching the loop's `if (ll >= 12) break`). -/
def levelsFrom (ll : Int) : List Int :=
  (List.range (12 - ll).toNat).map (fun i => ll + Int.ofNat i)

/-- The while-loop of `computeLLClockDisplays` over its remaining levels:
`filled = min(prog, segments)`, `available = segments - filled`,
`pending = min(remaining, available)`; push the display, subtract `pending`
from `remaining`, stop when the new `remaining ≤ 0`, else continue at the
next level with `prog = 0`. -/
def displaysGo : List Int → Int → Int → List LLClockInfo
  | [], _, _ => []
  | ll :: rest, prog, remaining =>
    let segments := getLLClockSegments ll
    let filled := min prog segments
    let available := segments - filled
    let pending := min remaining available
    if remaining - pending ≤ 0 then [⟨ll, segments, filled, pending⟩]
    else ⟨ll, segments, filled, pending⟩ :: displaysGo rest 0 (remaining - pending)

/-- `computeLLClockDisplays` (src/unnamed/part_001 lines 38-70). -/
def computeLLClockDisplays (licenseLevel progress pendingTicks : Int) :
    List LLClockInfo :=
  if 12 ≤ licenseLevel then []
  else displaysGo (levelsFrom licenseLevel) progress pendingTicks

/-- Sum of the `pending` fields of a display sequence. -/
def pendingSum (ds : List LLClockInfo) : Int :=
  (ds.map (fun d => d.pending)).sum

/-- The remaining room over a list of levels, where the first level carries
the starting `prog` and later levels start from 0: at each level the room is
`segments - filled` with `filled = min(prog, segments)`, exactly the clamped
filled value `computeLLClockDisplays` assigns there. -/
def roomGo : List Int → Int → Int
  | [], _ => 0
  | ll :: rest, prog =>
    (getLLClockSegments ll - min prog (getLLClockSegments ll)) + roomGo rest 0

/-- Total remaining room across levels `currentLevel .. 11`. -/
def llRemainingRoom (currentLevel progress : Int) : Int :=
  roomGo (levelsFrom currentLevel) progress

/-- `llTotalTicks` (src/frontend/src/app/dashboard/page.tsx lines 407-409,
pilot-present branch): the pilot's total LL ticks. -/
def llTotalTicks (license_level ll_clock_progress : Int) : Int :=
  computeTotalLLTicks license_level ll_clock_progress

/-- `llBaseTicks` (src/frontend/src/app/dashboard/page.tsx line 410):
`Math.max(0, llTotalTicks - log.ll_clock_change)`. -/
def llBaseTicks (license_level ll_clock_progress ll_clock_change : Int) : Int :=
  max 0 (llTotalTicks license_level ll_clock_progress - ll_clock_change)

/-- The `{ level: baseLL, progress: baseLLProgress }` destructuring
(src/frontend/src/app/dashboard/page.tsx line 411). -/
def baseLevelProgress (license_level ll_clock_progress ll_clock_change : Int) :
    LevelProgress :=
  ticksToLevelProgress (llBaseTicks license_level ll_clock_progress ll_clock_change)

/-- The base-state reconstruction as the spec words it:
`ticksToLevelProgress(max(0, computeTotalLLTicks(L, P) - c))` — a plain
integer subtraction of the log's tick delta, clamped at zero, then
round-tripped through the inverse mapping. -/
def specBaseState (L P c : Int) : LevelProgress :=
  ticksToLevelProgress (max 0 (computeTotalLLTicks L P - c))

example : getLLClockSegments 0 = 3 := by decide
example : computeTotalLLTicks 12 0 = 44 := by decide
example : ticksToLevelProgress 44 = ⟨12, 0⟩ := by decide
example : ticksToLevelProgress 7 = ⟨2, 1⟩ := by decide
example : computeLLClockDisplays 0 (-1) 0 = [⟨0, 3, -1, 0⟩] := by decide
example : computeLLClockDisplays 0 0 (-1) = [⟨0, 3, 0, -1⟩] := by decide
example : computeLLClockDisplays 1 2 5 =
    [⟨1, 3, 2, 1⟩, ⟨2, 3, 0, 3⟩, ⟨3, 3, 0, 1⟩] := by decide
example : llRemainingRoom 10 3 = 7 := by decide

/-! ## Helper lemmas -/

theorem three_le_seg (l : Int) : 3 ≤ getLLClockSegments l := by
  unfold getLLClockSegments
  split_ifs <;> omega

theorem seg_le_five (l : Int) : getLLClockSegments l ≤ 5 := by
  unfold getLLClockSegments
  split_ifs <;> omega

theorem roomGo_nonneg : ∀ (ls : List Int) (prog : Int), 0 ≤ roomGo ls prog := by
  intro ls
  induction ls with
  | nil => intro prog; simp [roomGo]
  | cons ll rest ih =>
    intro prog
    have h1 := ih 0
    have h2 : min prog (getLLClockSegments ll) ≤ getLLClockSegments ll :=
      min_le_right _ _
    simp only [roomGo]
    omega

theorem pendingSum_nil : pendingSum [] = 0 := rfl

theorem pendingSum_cons (d : LLClockInfo) (ds : List LLClockInfo) :
    pendingSum (d :: ds) = d.pending + pendingSum ds := by
  simp [pendingSum]

theorem displaysGo_pendingSum : ∀ (ls : List Int) (prog remaining : Int),
    0 ≤ remaining →
    pendingSum (displaysGo ls prog remaining) = min remaining (roomGo ls prog) := by
  intro ls
  induction ls with
  | nil =>
    intro prog remaining h
    simp only [displaysGo, roomGo, pendingSum_nil]
    omega
  | cons ll rest ih =>
    intro prog remaining h
    simp only [displaysGo, roomGo]
    have hfil : min prog (getLLClockSegments ll) ≤ getLLClockSegments ll :=
      min_le_right _ _
    have hroom : 0 ≤ roomGo rest 0 := roomGo_nonneg rest 0
    by_cases hb :
        remaining -
          min remaining
            (getLLClockSegments ll - min prog (getLLClockSegments ll)) ≤ 0
    · rw [if_pos hb]
      rw [pendingSum_cons, pendingSum_nil]
      dsimp only
      omega
    · rw [if_neg hb]
      rw [pendingSum_cons]
      rw [ih 0 _ (by omega)]
      dsimp only
      omega

theorem levelsFrom_cons (ll : Int) (h : ll < 12) :
    levelsFrom ll = ll :: levelsFrom (ll + 1) := by
  unfold levelsFrom
  have h1 : (12 - ll).toNat = (12 - (ll + 1)).toNat + 1 := by omega
  rw [h1, List.range_succ_eq_map, List.map_cons, List.map_map]
  refine congrArg₂ List.cons (by simp) ?_
  apply List.map_congr_left
  intro i _
  simp only [Function.comp_apply, Int.ofNat_eq_coe]
  push_cast
  ring

theorem displaysGo_filled_bounds : ∀ (ls : List Int) (prog remaining : Int),
    ∀ d ∈ displaysGo ls prog remaining,
      d.filled ≤ d.segments ∧ (0 ≤ prog → 0 ≤ d.filled) := by
  intro ls
  induction ls with
  | nil => intro prog remaining d hd; simp [displaysGo] at hd
  | cons ll rest ih =>
    intro prog remaining d hd
    simp only [displaysGo] at hd
    have hseg := three_le_seg ll
    by_cases hb :
        remaining -
          min remaining
            (getLLClockSegments ll - min prog (getLLClockSegments ll)) ≤ 0
    · rw [if_pos hb] at hd
      simp only [List.mem_singleton] at hd
      subst hd
      dsimp only
      omega
    · rw [if_neg hb] at hd
      rcases List.mem_cons.mp hd with h1 | h2
      · subst h1
        dsimp only
        omega
      · have h3 := ih 0 _ d h2
        exact ⟨h3.1, fun _ => h3.2 le_rfl⟩

theorem segSum_nonneg (ls : List Int) : 0 ≤ (ls.map getLLClockSegments).sum := by
  apply List.sum_nonneg
  intro x hx
  simp only [List.mem_map] at hx
  obtain ⟨l, _, rfl⟩ := hx
  have := three_le_seg l
  omega

theorem ticksLoopGo_saturate : ∀ (ls : List Int) (remaining : Int),
    (ls.map getLLClockSegments).sum ≤ remaining →
    ticksLoopGo ls remaining = ⟨12, 0⟩ := by
  intro ls
  induction ls with
  | nil => intro r h; rfl
  | cons ll rest ih =>
    intro r h
    simp only [ticksLoopGo]
    have h1 : 0 ≤ (rest.map getLLClockSegments).sum := segSum_nonneg rest
    simp only [List.map_cons, List.sum_cons] at h
    rw [if_neg (by omega)]
    exact ih _ (by omega)

theorem sumLLSegments_succ_int (L : Int) (h : 1 ≤ L) :
    sumLLSegments L.toNat =
      sumLLSegments (L - 1).toNat + getLLClockSegments (L - 1) := by
  have h1 : L.toNat = (L - 1).toNat + 1 := by omega
  have h2 : Int.ofNat (L - 1).toNat = L - 1 := by
    rw [Int.ofNat_eq_coe]
    exact Int.toNat_of_nonneg (by omega)
  rw [h1, sumLLSegments, h2]

theorem ticksLoopGo_shape : ∀ (ls : List Int) (remaining : Int),
    0 ≤ remaining →
    0 ≤ (ticksLoopGo ls remaining).progress ∧
      ((ticksLoopGo ls remaining).level = 12 ∧
          (ticksLoopGo ls remaining).progress = 0 ∨
        (ticksLoopGo ls remaining).level ∈ ls ∧
          (ticksLoopGo ls remaining).progress <
            getLLClockSegments (ticksLoopGo ls remaining).level) := by
  intro ls
  induction ls with
  | nil => intro r h; exact ⟨le_refl 0, Or.inl ⟨rfl, rfl⟩⟩
  | cons ll rest ih =>
    intro r h
    simp only [ticksLoopGo]
    by_cases hc : r < getLLClockSegments ll
    · rw [if_pos hc]
      exact ⟨h, Or.inr ⟨List.mem_cons_self _ _, hc⟩⟩
    · rw [if_neg hc]
      have h4 := ih (r - getLLClockSegments ll) (by omega)
      refine ⟨h4.1, ?_⟩
      rcases h4.2 with h1 | h2
      · exact Or.inl h1
      · exact Or.inr ⟨List.mem_cons_of_mem _ h2.1, h2.2⟩

theorem llLevels_mem_bounds : ∀ l ∈ llLevels, 0 ≤ l ∧ l < 12 := by decide

/-! ## Claim theorems -/

/-- C1: for every level L with 0 ≤ L < 12 and every progress P with
0 ≤ P < getLLClockSegments L, ticksToLevelProgress inverts
computeTotalLLTicks: the round trip returns exactly {level: L, progress: P}. -/
theorem ticksToLevelProgress_roundTrip (L P : Int)
    (hL0 : 0 ≤ L) (hL : L < 12) (hP0 : 0 ≤ P)
    (hP : P < getLLClockSegments L) :
    ticksToLevelProgress (computeTotalLLTicks L P) = ⟨L, P⟩ := by
  have h5 : getLLClockSegments L ≤ 5 := seg_le_five L
  have hP4 : P ≤ 4 := by omega
  interval_cases L <;> interval_cases P <;> revert hP <;> decide

/-- C1 witness: the round trip at L = 7, P = 3. -/
theorem ticksToLevelProgress_roundTrip_witness :
    ticksToLevelProgress (computeTotalLLTicks 7 3) = ⟨7, 3⟩ :=
  ticksToLevelProgress_roundTrip 7 3 (by decide) (by decide) (by decide)
    (by decide)

/-- C2: for currentLevel < 12 and pendingTicks ≥ 0, the sum of the pending
fields over computeLLClockDisplays equals min(pendingTicks, total remaining
room over levels currentLevel..11, each level's room being
segments - filled with the function's clamped filled value). -/
theorem computeLLClockDisplays_pendingSum
    (currentLevel progress pendingTicks : Int)
    (hlvl : currentLevel < 12) (hpt : 0 ≤ pendingTicks) :
    pendingSum (computeLLClockDisplays currentLevel progress pendingTicks) =
      min pendingTicks (llRemainingRoom currentLevel progress) := by
  unfold computeLLClockDisplays llRemainingRoom
  rw [if_neg (by omega)]
  exact displaysGo_pendingSum _ _ _ hpt

/-- C2 witness: at currentLevel 1, progress 2, pendingTicks 100 the pending
sum saturates at the remaining room. -/
theorem computeLLClockDisplays_pendingSum_witness :
    pendingSum (computeLLClockDisplays 1 2 100) =
      min 100 (llRemainingRoom 1 2) :=
  computeLLClockDisplays_pendingSum 1 2 100 (by decide) (by decide)

/-- C3 counterexample: at currentLevel 0 (< 12), progress -1, pendingTicks 0
(≥ 0), the emitted record has filled = -1 < 0: the code clamps filled only
from above, so the claimed lower bound 0 ≤ filled fails for negative
progress. -/
theorem computeLLClockDisplays_negFilled_cex :
    computeLLClockDisplays 0 (-1) 0 = [⟨0, 3, -1, 0⟩] ∧
      ¬ (∀ d ∈ computeLLClockDisplays 0 (-1) 0, 0 ≤ d.filled) := by decide

/-- C3 (amended): for currentLevel < 12 and pendingTicks ≥ 0, every emitted
record has filled ≤ segments; when additionally progress ≥ 0, every record
has 0 ≤ filled ≤ segments.  (Oversized progress is clamped from above;
negative progress is passed through, giving a negative filled at the
starting level.) -/
theorem computeLLClockDisplays_filled_range
    (currentLevel progress pendingTicks : Int)
    (hlvl : currentLevel < 12) (hpt : 0 ≤ pendingTicks) :
    (∀ d ∈ computeLLClockDisplays currentLevel progress pendingTicks,
        d.filled ≤ d.segments) ∧
      (0 ≤ progress →
        ∀ d ∈ computeLLClockDisplays currentLevel progress pendingTicks,
          0 ≤ d.filled ∧ d.filled ≤ d.segments) := by
  unfold computeLLClockDisplays
  rw [if_neg (by omega)]
  constructor
  · intro d hd
    exact (displaysGo_filled_bounds _ _ _ d hd).1
  · intro hp d hd
    have h := displaysGo_filled_bounds _ _ _ d hd
    exact ⟨h.2 hp, h.1⟩

/-- C3 witness: at currentLevel 3, progress 100, pendingTicks 2 the record
emitted for level 3 has 0 ≤ filled ≤ segments. -/
theorem computeLLClockDisplays_filled_range_witness :
    0 ≤ (LLClockInfo.mk 3 3 3 0).filled ∧
      (LLClockInfo.mk 3 3 3 0).filled ≤ (LLClockInfo.mk 3 3 3 0).segments :=
  (computeLLClockDisplays_filled_range 3 100 2 (by decide) (by decide)).2
    (by decide) ⟨3, 3, 3, 0⟩ (by decide)

/-- C4 counterexample: at currentLevel 0 (< 12), progress 0,
pendingTicks -1 (< 0) the single emitted record carries pending = -1, not
pending = 0 as the claim states. -/
theorem computeLLClockDisplays_negPending_cex :
    computeLLClockDisplays 0 0 (-1) = [⟨0, 3, 0, -1⟩] ∧
      ¬ (∀ d ∈ computeLLClockDisplays 0 0 (-1), d.pending = 0) := by decide

/-- C4 (amended): for currentLevel < 12 and pendingTicks < 0, the loop exits
after its first iteration and returns exactly one record, whose pending
equals pendingTicks (the negative value is passed through, not clamped to
zero). -/
theorem computeLLClockDisplays_negPendingTicks
    (currentLevel progress pendingTicks : Int)
    (hlvl : currentLevel < 12) (hpt : pendingTicks < 0) :
    computeLLClockDisplays currentLevel progress pendingTicks =
      [⟨currentLevel, getLLClockSegments currentLevel,
        min progress (getLLClockSegments currentLevel), pendingTicks⟩] := by
  unfold computeLLClockDisplays
  rw [if_neg (by omega)]
  rw [levelsFrom_cons currentLevel hlvl]
  simp only [displaysGo]
  have havail :
      min progress (getLLClockSegments currentLevel) ≤
        getLLClockSegments currentLevel := min_le_right _ _
  have hpend :
      min pendingTicks
          (getLLClockSegments currentLevel -
            min progress (getLLClockSegments currentLevel)) = pendingTicks := by
    omega
  rw [hpend, if_pos (by omega)]

/-- C4 witness: computeLLClockDisplays at (1, 1, -2) returns exactly one
record with pending = -2. -/
theorem computeLLClockDisplays_negPendingTicks_witness :
    computeLLClockDisplays 1 1 (-2) = [⟨1, 3, 1, -2⟩] :=
  (computeLLClockDisplays_negPendingTicks 1 1 (-2) (by decide)
    (by decide)).trans (by decide)

/-- C5: getLLClockSegments is total on the integers with values in {3,4,5}:
3 on 1..5 and on everything outside 1..12 (including 0 and negatives),
4 on 6..9, and 5 on 10..12. -/
theorem getLLClockSegments_table (l : Int) :
    (getLLClockSegments l = 3 ∨ getLLClockSegments l = 4 ∨
        getLLClockSegments l = 5) ∧
      (1 ≤ l ∧ l ≤ 5 → getLLClockSegments l = 3) ∧
      (¬ (1 ≤ l ∧ l ≤ 12) → getLLClockSegments l = 3) ∧
      (6 ≤ l ∧ l ≤ 9 → getLLClockSegments l = 4) ∧
      (10 ≤ l ∧ l ≤ 12 → getLLClockSegments l = 5) := by
  unfold getLLClockSegments
  split_ifs <;> refine ⟨by omega, ?_, ?_, ?_, ?_⟩ <;> omega

/-- C5 witness: the table at l = 7 gives 4 segments. -/
theorem getLLClockSegments_table_witness : getLLClockSegments 7 = 4 :=
  (getLLClockSegments_table 7).2.2.2.1 (by decide)

/-- C6: every tick total t at or above computeTotalLLTicks 12 0 (the sum of
all segment counts through level 11) saturates: ticksToLevelProgress t
returns {level: 12, progress: 0}. -/
theorem ticksToLevelProgress_saturates (t : Int)
    (h : computeTotalLLTicks 12 0 ≤ t) :
    ticksToLevelProgress t = ⟨12, 0⟩ := by
  have h44 : computeTotalLLTicks 12 0 = 44 := by decide
  have hsum : (llLevels.map getLLClockSegments).sum = 44 := by decide
  unfold ticksToLevelProgress
  apply ticksLoopGo_saturate
  omega

/-- C6 witness: saturation at t = 100. -/
theorem ticksToLevelProgress_saturates_witness :
    ticksToLevelProgress 100 = ⟨12, 0⟩ :=
  ticksToLevelProgress_saturates 100 (by decide)

/-- C7: a maxed-out pilot (currentLevel ≥ 12) gets the empty display
sequence, whatever progress and pendingTicks are. -/
theorem computeLLClockDisplays_maxed
    (currentLevel progress pendingTicks : Int) (h : 12 ≤ currentLevel) :
    computeLLClockDisplays currentLevel progress pendingTicks = [] := by
  unfold computeLLClockDisplays
  rw [if_pos h]

/-- C7 witness: computeLLClockDisplays (12, 0, 10) = []. -/
theorem computeLLClockDisplays_maxed_witness :
    computeLLClockDisplays 12 0 10 = [] :=
  computeLLClockDisplays_maxed 12 0 10 (by decide)

/-- C8: computeTotalLLTicks is strictly increasing in progress for a fixed
level, and for L ≥ 1 the total at (L, 0) strictly exceeds the total at
(L-1, segmentsForLevel(L-1) - 1): totals strictly increase along the valid
(level, progress) order. -/
theorem computeTotalLLTicks_strictMono :
    (∀ L P Q : Int, P < Q →
        computeTotalLLTicks L P < computeTotalLLTicks L Q) ∧
      (∀ L : Int, 1 ≤ L →
        computeTotalLLTicks (L - 1) (getLLClockSegments (L - 1) - 1) <
          computeTotalLLTicks L 0) := by
  constructor
  · intro L P Q h
    unfold computeTotalLLTicks
    omega
  · intro L hL
    unfold computeTotalLLTicks
    rw [sumLLSegments_succ_int L hL]
    omega

/-- C8 witness: strict monotonicity at the level-5 to level-6 boundary. -/
theorem computeTotalLLTicks_strictMono_witness :
    computeTotalLLTicks 6 0 < computeTotalLLTicks 6 1 ∧
      computeTotalLLTicks 5 (getLLClockSegments 5 - 1) <
        computeTotalLLTicks 6 0 :=
  ⟨computeTotalLLTicks_strictMono.1 6 0 1 (by decide),
    computeTotalLLTicks_strictMono.2 6 (by decide)⟩

/-- C9: the dashboard's base-state reconstruction is exactly
ticksToLevelProgress(max(0, computeTotalLLTicks(license_level,
ll_clock_progress) - ll_clock_change)) — the spec-worded plain subtraction
clamped at zero then round-tripped — and the clamped base tick count is
never negative. -/
theorem baseLevelProgress_eq_spec
    (license_level ll_clock_progress ll_clock_change : Int) :
    baseLevelProgress license_level ll_clock_progress ll_clock_change =
        specBaseState license_level ll_clock_progress ll_clock_change ∧
      0 ≤ llBaseTicks license_level ll_clock_progress ll_clock_change :=
  ⟨rfl, le_max_left 0 _⟩

/-- C10: for every integer t, ticksToLevelProgress t yields a level in
0..12 with nonnegative progress; below level 12 the progress is below that
level's segment count, at level 12 it is 0; and every t ≤ 0 yields
{level: 0, progress: 0}. -/
theorem ticksToLevelProgress_valid (t : Int) :
    (0 ≤ (ticksToLevelProgress t).level ∧
        (ticksToLevelProgress t).level ≤ 12 ∧
        0 ≤ (ticksToLevelProgress t).progress ∧
        ((ticksToLevelProgress t).level < 12 →
          (ticksToLevelProgress t).progress <
            getLLClockSegments (ticksToLevelProgress t).level) ∧
        ((ticksToLevelProgress t).level = 12 →
          (ticksToLevelProgress t).progress = 0)) ∧
      (t ≤ 0 → ticksToLevelProgress t = ⟨0, 0⟩) := by
  constructor
  · have h := ticksLoopGo_shape llLevels (max 0 t) (le_max_left 0 t)
    unfold ticksToLevelProgress
    rcases h.2 with h1 | h2
    · refine ⟨by omega, by omega, h.1, ?_, fun _ => h1.2⟩
      intro hlt
      exact absurd hlt (by omega)
    · have hb := llLevels_mem_bounds _ h2.1
      refine ⟨hb.1, by omega, h.1, fun _ => h2.2, ?_⟩
      intro h12
      exact absurd h12 (by omega)
  · intro ht
    unfold ticksToLevelProgress
    have hmax : max 0 t = 0 := by omega
    rw [hmax]
    decide

/-- C10 witness: a negative input yields {level: 0, progress: 0}. -/
theorem ticksToLevelProgress_valid_witness :
    ticksToLevelProgress (-5) = ⟨0, 0⟩ :=
  (ticksToLevelProgress_valid (-5)).2 (by decide)
